import Mathlib

/-!
Verification of the Monte Carlo trading simulator core.

The JavaScript sources are shallowly embedded over exact arithmetic:
JS numbers become `ℚ` (all simulation arithmetic is `+ - * /` and
comparisons; `Math.pow` with fractional exponents, used only in the
annualized-ROI helper and the geometric profit variant, is modelled with
`Real.rpow` over `ℝ`).  The global `Math.random()` stream is modelled as
an explicit stream `s : ℕ → ℚ` threaded through every function; drawing
one value reads `s 0` and continues with the shifted stream
`fun k => s (k + 1)`, exactly one draw per executed trade, matching the
single global stream of the source.
-/

namespace TradingSim

/-- One simulated month, as pushed onto `resultsArray` by
`accumulateProfits` in `main.js`. -/
structure MonthRecord where
  grossProfit : ℚ
  expensesDeducted : ℚ
  netProfit : ℚ
  endBalance : ℚ
deriving DecidableEq

/-- Default record used only as the out-of-bounds value of `List.getD`;
every theorem guards its indices, so the default is never reached. -/
def MonthRecord.zero : MonthRecord := ⟨0, 0, 0, 0⟩

/-- One Monte Carlo trial result, as pushed onto `allRunsResults` by
`runMonteCarlo`. -/
structure RunResult where
  finalBalance : ℚ
  survived : Bool
  monthlyData : List MonthRecord
deriving DecidableEq

/-- Default result used only as the out-of-bounds value of `List.getD`. -/
def RunResult.zero : RunResult := ⟨0, false, []⟩

/-- The `params` object handed to `runMonteCarlo` (field names and the
integer/number distinction follow `getAndValidateInputs`). -/
structure SimParams where
  startingBalance : ℚ
  riskPerTrade : ℚ
  tradesPerWeek : ℕ
  winRate : ℚ
  riskToReward : ℚ
  totalMonthlyExpenses : ℚ
  expensesBegin : ℤ
  simulationTimeline : ℕ
  myFeePercentage : ℚ

namespace Main

/-- The per-trade loop of `calculateMonthlyProfit` (`main.js` lines
16-28): `n` trades remain, `currentBalance` compounds, one random draw
is consumed per executed trade, and the loop stops as soon as
`currentBalance <= 0`. -/
def tradeLoop (riskPercentage winPercentage riskToRewardRatio feeAsPercentageOfRisk : ℚ) :
    ℕ → ℚ → (ℕ → ℚ) → ℚ × (ℕ → ℚ)
  | 0, currentBalance, s => (currentBalance, s)
  | n + 1, currentBalance, s =>
    if currentBalance ≤ 0 then (currentBalance, s)
    else
      let amountRisked := currentBalance * riskPercentage
      if s 0 < winPercentage then
        tradeLoop riskPercentage winPercentage riskToRewardRatio feeAsPercentageOfRisk n
          (currentBalance + (amountRisked * riskToRewardRatio - amountRisked * feeAsPercentageOfRisk))
          (fun k => s (k + 1))
      else
        tradeLoop riskPercentage winPercentage riskToRewardRatio feeAsPercentageOfRisk n
          (currentBalance - (amountRisked + amountRisked * feeAsPercentageOfRisk))
          (fun k => s (k + 1))

/-- The stochastic `calculateMonthlyProfit` of `main.js` lines 5-30:
`tradesPerMonth = tradesPerWeek * 4`, per-trade compounding, returns the
month's net change together with the remaining random stream. -/
def calculateMonthlyProfit (accountBalance riskPercentage : ℚ) (tradesPerWeek : ℕ)
    (winPercentage riskToRewardRatio feeAsPercentageOfRisk : ℚ) (s : ℕ → ℚ) :
    ℚ × (ℕ → ℚ) :=
  let r := tradeLoop riskPercentage winPercentage riskToRewardRatio feeAsPercentageOfRisk
    (tradesPerWeek * 4) accountBalance s
  (r.1 - accountBalance, r.2)

/-- The month loop of `accumulateProfits` (`main.js` lines 50-76): `i`
is the 0-based month index, the second argument the months remaining;
the expense policy fires when `expensesBegin >= 1 && i + 1 >=
expensesBegin`; the record is pushed and the loop breaks once the new
balance is `<= 0`. -/
def monthLoop (riskPercentage : ℚ) (tradesPerWeek : ℕ)
    (winPercentage riskToRewardRatio monthlyExpenses : ℚ) (expensesBegin : ℤ)
    (myFeePercentage : ℚ) :
    ℕ → ℕ → ℚ → (ℕ → ℚ) → List MonthRecord × (ℕ → ℚ)
  | _, 0, _, s => ([], s)
  | i, m + 1, currentBalance, s =>
    let pr := calculateMonthlyProfit currentBalance riskPercentage tradesPerWeek
      winPercentage riskToRewardRatio myFeePercentage s
    let grossMonthlyProfit := pr.1
    let netMonthlyProfit :=
      if 1 ≤ expensesBegin ∧ expensesBegin ≤ (i : ℤ) + 1 then
        grossMonthlyProfit - monthlyExpenses
      else grossMonthlyProfit
    let expensesDeducted := grossMonthlyProfit - netMonthlyProfit
    let newBalance := currentBalance + netMonthlyProfit
    let record : MonthRecord := ⟨grossMonthlyProfit, expensesDeducted, netMonthlyProfit, newBalance⟩
    if newBalance ≤ 0 then ([record], pr.2)
    else
      let rest := monthLoop riskPercentage tradesPerWeek winPercentage riskToRewardRatio
        monthlyExpenses expensesBegin myFeePercentage (i + 1) m newBalance pr.2
      (record :: rest.1, rest.2)

/-- `accumulateProfits` of `main.js` lines 36-78 (argument order as in
the source).  The identically named function embedded in `app.js`
(lines 1000-1046) differs only in writing the guard `expensesBegin > 0`
instead of `expensesBegin >= 1`, which is the same condition on the
integer `expensesBegin`, so this single definition covers both. -/
def accumulateProfits (startingBalance riskPercentage : ℚ) (tradesPerWeek : ℕ)
    (winPercentage riskToRewardRatio monthlyExpenses : ℚ) (expensesBegin : ℤ)
    (simulationTimeline : ℕ) (myFeePercentage : ℚ) (s : ℕ → ℚ) :
    List MonthRecord × (ℕ → ℚ) :=
  monthLoop riskPercentage tradesPerWeek winPercentage riskToRewardRatio monthlyExpenses
    expensesBegin myFeePercentage 0 simulationTimeline startingBalance s

/-- `runMonteCarlo` of `main.js` lines 88-122: note that whenever the
lifetime produced at least one month (`finalMonth` non-null) the run is
pushed with the literal `survived: true`, regardless of the sign of
`finalMonth.endBalance`. -/
def runMonteCarlo (params : SimParams) : ℕ → (ℕ → ℚ) → List RunResult × (ℕ → ℚ)
  | 0, s => ([], s)
  | n + 1, s =>
    let one := accumulateProfits params.startingBalance params.riskPerTrade
      params.tradesPerWeek params.winRate params.riskToReward params.totalMonthlyExpenses
      params.expensesBegin params.simulationTimeline params.myFeePercentage s
    let run : RunResult :=
      match one.1.getLast? with
      | some finalMonth => ⟨finalMonth.endBalance, true, one.1⟩
      | none => ⟨0, false, []⟩
    let rest := runMonteCarlo params n one.2
    (run :: rest.1, rest.2)

end Main

namespace App

/-- `runMonteCarlo` of `app.js` lines 1052-1088: identical to the
`main.js` variant except that it computes `didSurvive =
finalMonth.endBalance > 0` instead of the literal `true`.  It calls the
`accumulateProfits` embedded above (see its docstring for the
equivalence of the two copies). -/
def runMonteCarlo (params : SimParams) : ℕ → (ℕ → ℚ) → List RunResult × (ℕ → ℚ)
  | 0, s => ([], s)
  | n + 1, s =>
    let one := Main.accumulateProfits params.startingBalance params.riskPerTrade
      params.tradesPerWeek params.winRate params.riskToReward params.totalMonthlyExpenses
      params.expensesBegin params.simulationTimeline params.myFeePercentage s
    let run : RunResult :=
      match one.1.getLast? with
      | some finalMonth => ⟨finalMonth.endBalance, decide (finalMonth.endBalance > 0), one.1⟩
      | none => ⟨0, false, []⟩
    let rest := runMonteCarlo params n one.2
    (run :: rest.1, rest.2)

end App

namespace Geom

/-- The closed-form geometric `calculateMonthlyProfit` variant
(`main.js` lines 256-282).  `Math.pow` is modelled by `Real.rpow`; the
two agree on every application this file makes of the definition
(positive base, or exponent zero). -/
noncomputable def calculateMonthlyProfit (accountBalance riskPercentage : ℝ)
    (tradesPerWeek : ℕ) (winPercentage riskToRewardRatio feeAsPercentageOfRisk : ℝ) : ℝ :=
  let tradesPerMonth : ℝ := (tradesPerWeek : ℝ) * 4
  let tradesWon := tradesPerMonth * winPercentage
  let tradesLost := tradesPerMonth - tradesWon
  let winFactor := 1 + riskPercentage * (riskToRewardRatio - feeAsPercentageOfRisk)
  let lossFactor := 1 - riskPercentage * (1 + feeAsPercentageOfRisk)
  accountBalance * winFactor ^ tradesWon * lossFactor ^ tradesLost - accountBalance

end Geom

/-- `totalRuinCount` as computed in `runSimulation` (`app.js` line 201,
`part_001` lines 235-238): a `reduce` that counts runs with
`finalBalance <= 0`. -/
def totalRuinCount (results : List RunResult) : ℕ :=
  results.foldl (fun count run => if run.finalBalance ≤ 0 then count + 1 else count) 0

/-- `profitableCount` as computed in `runSimulation` (`app.js` line 202,
`part_001` lines 239-241): runs with `finalBalance >
params.startingBalance`. -/
def profitableCount (results : List RunResult) (startingBalance : ℚ) : ℕ :=
  (results.filter (fun run => decide (run.finalBalance > startingBalance))).length

/-- `losingCount` as computed in `runSimulation` (`app.js` line 203,
`part_001` lines 242-244): runs with `finalBalance > 0 && finalBalance <
params.startingBalance`. -/
def losingCount (results : List RunResult) (startingBalance : ℚ) : ℕ :=
  (results.filter (fun run =>
    decide (run.finalBalance > 0) && decide (run.finalBalance < startingBalance))).length

/-- Boundary class the reporting code never counts: runs ending exactly
at the starting balance. -/
def boundaryCount (results : List RunResult) (startingBalance : ℚ) : ℕ :=
  (results.filter (fun run => decide (run.finalBalance = startingBalance))).length

/-- `cutoffIndex = Math.floor(totalRuns * 0.98)` from the adaptive
histogram (`part_001` line 252), in exact arithmetic. -/
def histCutoffIndex (totalRuns : ℕ) : ℕ :=
  (⌊(totalRuns : ℚ) * (98 / 100)⌋).toNat

/-- `minBalance = worstCaseOfAll.finalBalance`, i.e. the first element
of the ascending-sorted results (`part_001` lines 223, 254). -/
def histCoreMin (results : List RunResult) : ℚ :=
  (results.getD 0 RunResult.zero).finalBalance

/-- `maxBalanceForBuckets = simulationResults[cutoffIndex].finalBalance`
(`part_001` line 253). -/
def histCoreMax (results : List RunResult) : ℚ :=
  (results.getD (histCutoffIndex results.length) RunResult.zero).finalBalance

/-- The common width `coreRange / numCoreBuckets` of the nine core
buckets (`part_001` lines 255-262). -/
def histBucketWidth (results : List RunResult) : ℚ :=
  (histCoreMax results - histCoreMin results) / 9

/-- `bucketIndex = Math.min(numCoreBuckets - 1, Math.floor((finalBalance
- minBalance) / (coreRange / numCoreBuckets)))` (`part_001` lines
277-282), as an integer so that the `if (buckets[bucketIndex])` guard of
the source is visible: the run is counted exactly when this is
nonnegative. -/
def bucketIndexOf (coreMin width : ℚ) (run : RunResult) : ℤ :=
  min 8 ⌊(run.finalBalance - coreMin) / width⌋

/-- Count of runs landing in core bucket `i` (`part_001` lines 275-291):
runs with `finalBalance < maxBalanceForBuckets` whose computed index is
`i`. -/
def coreBucketCount (results : List RunResult) (coreMax coreMin width : ℚ) (i : ℕ) : ℕ :=
  (results.filter (fun run =>
    decide (run.finalBalance < coreMax) && decide (bucketIndexOf coreMin width run = (i : ℤ)))).length

/-- Count of runs landing in the outlier bucket (`part_001` lines
287-290): runs with `finalBalance >= maxBalanceForBuckets`. -/
def outlierBucketCount (results : List RunResult) (coreMax : ℚ) : ℕ :=
  (results.filter (fun run => !decide (run.finalBalance < coreMax))).length

/-- `calculateAnnualizedROI` (`part_001` lines 190-205), including the
early guard `if (startingBalance <= 0 || timelineMonths <= 0) return 0`.
Inputs are the exact rationals fed by the simulation; the value is real
because of `Math.pow` with exponent `1 / years`. -/
noncomputable def calculateAnnualizedROI (finalBalance startingBalance timelineMonths : ℚ) : ℝ :=
  if startingBalance ≤ 0 ∨ timelineMonths ≤ 0 then 0
  else
    let totalReturn : ℚ := (finalBalance - startingBalance) / startingBalance
    let years : ℚ := timelineMonths / 12
    if years ≤ 0 then ((totalReturn * 100 : ℚ) : ℝ)
    else if 1 + totalReturn < 0 then
      -(|1 + (totalReturn : ℝ)| ^ (1 / (years : ℝ)) - 1) * 100
    else ((1 + (totalReturn : ℝ)) ^ (1 / (years : ℝ)) - 1) * 100

/-- Modelled from the spec's words for claim C3 as amended: the function
returns 0 whenever `startingBalance <= 0` or `timelineMonths <= 0`
(which is exactly when `years <= 0`, so no branch ever returns
`totalReturn * 100`), and otherwise applies the wipeout-guarded
annualization formulas. -/
noncomputable def annualizedROISpec (finalBalance startingBalance timelineMonths : ℚ) : ℝ :=
  if startingBalance ≤ 0 ∨ timelineMonths ≤ 0 then 0
  else
    let totalReturn : ℚ := (finalBalance - startingBalance) / startingBalance
    if 1 + totalReturn < 0 then
      -(|1 + (totalReturn : ℝ)| ^ (1 / ((timelineMonths : ℝ) / 12)) - 1) * 100
    else ((1 + (totalReturn : ℝ)) ^ (1 / ((timelineMonths : ℝ) / 12)) - 1) * 100

/-- Parameters whose lifetime deterministically ruins in the first
month: `winRate = 0` makes every trade lose (any draw in `[0,1)` is
`>= 0`), and risking 100% per trade zeroes the balance at once. -/
def ruinParams : SimParams := ⟨100, 1, 1, 0, 2, 0, 0, 1, 0⟩

/-- Parameters that trade zero times per week, so every lifetime ends
exactly at the starting balance. -/
def idleParams : SimParams := ⟨100, 1/50, 0, 1/2, 2, 0, 0, 1, 0⟩

/-- The run set `runMonteCarlo(idleParams, 1)` produces (with any
stream; the draws are never read). -/
def idleRunSet : List RunResult :=
  (Main.runMonteCarlo idleParams 1 (fun _ => 1/2)).1

/-- Eleven ascending run results used to exercise the adaptive
histogram: final balances 0, 1, ..., 10. -/
def elevenRuns : List RunResult :=
  [⟨0, false, []⟩, ⟨1, true, []⟩, ⟨2, true, []⟩, ⟨3, true, []⟩, ⟨4, true, []⟩,
   ⟨5, true, []⟩, ⟨6, true, []⟩, ⟨7, true, []⟩, ⟨8, true, []⟩, ⟨9, true, []⟩,
   ⟨10, true, []⟩]

/-! Trade-loop lemmas. -/

/-- With `winPercentage = 0` every executed trade takes the loss branch
(`Math.random()` draws are nonnegative), so as long as the per-trade
loss factor `1 - risk * (1 + fee)` is nonnegative the ruin break never
truncates the month and the balance compounds geometrically. -/
theorem tradeLoop_lose_closed (risk rr fee : ℚ) (hf : 0 ≤ 1 - risk * (1 + fee)) :
    ∀ (n : ℕ) (bal : ℚ) (s : ℕ → ℚ), 0 ≤ bal → (∀ k, 0 ≤ s k) →
      (Main.tradeLoop risk 0 rr fee n bal s).1 = bal * (1 - risk * (1 + fee)) ^ n := by
  intro n
  induction n with
  | zero => intro bal s _ _; simp [Main.tradeLoop]
  | succ n ih =>
    intro bal s hb hs
    rcases eq_or_lt_of_le hb with heq | hpos
    · simp [Main.tradeLoop, ← heq]
    · have hnotwin : ¬ s 0 < 0 := not_lt.mpr (hs 0)
      have hstep : bal - (bal * risk + bal * risk * fee) = bal * (1 - risk * (1 + fee)) := by
        ring
      have hb' : 0 ≤ bal - (bal * risk + bal * risk * fee) := by
        rw [hstep]; exact mul_nonneg hb hf
      rw [show n + 1 = Nat.succ n from rfl]
      simp only [Main.tradeLoop, if_neg (not_le.mpr hpos), if_neg hnotwin]
      rw [ih _ _ hb' (fun k => hs (k + 1)), hstep, pow_succ]
      ring

/-- With `winPercentage = 0` the balance never increases: each executed
trade subtracts the (nonnegative) risked amount plus fee, and the loop
stops once the balance is nonpositive. -/
theorem tradeLoop_lose_le (risk rr fee : ℚ) (hnn : 0 ≤ risk * (1 + fee)) :
    ∀ (n : ℕ) (bal : ℚ) (s : ℕ → ℚ), (∀ k, 0 ≤ s k) →
      (Main.tradeLoop risk 0 rr fee n bal s).1 ≤ bal := by
  intro n
  induction n with
  | zero => intro bal s _; simp [Main.tradeLoop]
  | succ n ih =>
    intro bal s hs
    by_cases hb : bal ≤ 0
    · simp [Main.tradeLoop, hb]
    · have hpos : 0 < bal := not_le.mp hb
      have hnotwin : ¬ s 0 < 0 := not_lt.mpr (hs 0)
      simp only [Main.tradeLoop, if_neg hb, if_neg hnotwin]
      calc (Main.tradeLoop risk 0 rr fee n (bal - (bal * risk + bal * risk * fee))
              fun k => s (k + 1)).1
          ≤ bal - (bal * risk + bal * risk * fee) := ih _ _ (fun k => hs (k + 1))
        _ ≤ bal := by nlinarith

/-- With `winPercentage = 1` every executed trade takes the win branch
(`Math.random()` draws are below 1) and, with zero fee and positive
risk and reward, the balance stays positive, so the loop runs all `n`
trades and compounds geometrically. -/
theorem tradeLoop_win_closed (risk rr : ℚ) (hr : 0 < risk) (hrr : 0 < rr) :
    ∀ (n : ℕ) (bal : ℚ) (s : ℕ → ℚ), 0 < bal → (∀ k, s k < 1) →
      (Main.tradeLoop risk 1 rr 0 n bal s).1 = bal * (1 + risk * rr) ^ n := by
  intro n
  induction n with
  | zero => intro bal s _ _; simp [Main.tradeLoop]
  | succ n ih =>
    intro bal s hb hs
    have hwin : s 0 < 1 := hs 0
    have hstep : bal + (bal * risk * rr - bal * risk * 0) = bal * (1 + risk * rr) := by
      ring
    have hb' : 0 < bal + (bal * risk * rr - bal * risk * 0) := by
      rw [hstep]; positivity
    simp only [Main.tradeLoop, if_neg (not_le.mpr hb), if_pos hwin]
    rw [ih _ _ hb' (fun k => hs (k + 1)), hstep, pow_succ]
    ring

/-- The per-trade loop is homogeneous of degree 1 in the balance: the
risked amount, both branch updates and the ruin test all scale with the
balance, and the random draws are untouched. -/
theorem tradeLoop_smul (risk win rr fee c : ℚ) (hc : 0 < c) :
    ∀ (n : ℕ) (bal : ℚ) (s : ℕ → ℚ),
      (Main.tradeLoop risk win rr fee n (c * bal) s).1
        = c * (Main.tradeLoop risk win rr fee n bal s).1 := by
  intro n
  induction n with
  | zero => intro bal s; simp [Main.tradeLoop]
  | succ n ih =>
    intro bal s
    by_cases hb : bal ≤ 0
    · have hcb : c * bal ≤ 0 := mul_nonpos_iff.mpr (Or.inl ⟨hc.le, hb⟩)
      simp [Main.tradeLoop, hb, hcb]
    · have hcb : ¬ c * bal ≤ 0 := not_le.mpr (mul_pos hc (not_le.mp hb))
      by_cases hw : s 0 < win
      · simp only [Main.tradeLoop, if_neg hb, if_neg hcb, if_pos hw]
        rw [show c * bal + (c * bal * risk * rr - c * bal * risk * fee)
              = c * (bal + (bal * risk * rr - bal * risk * fee)) from by ring, ih]
      · simp only [Main.tradeLoop, if_neg hb, if_neg hcb, if_neg hw]
        rw [show c * bal - (c * bal * risk + c * bal * risk * fee)
              = c * (bal - (bal * risk + bal * risk * fee)) from by ring, ih]

/-! Claims C4, C8, C9, C10 about `calculateMonthlyProfit`. -/

/-- C4 (counterexample): at the valid parameters `accountBalance = 100`,
`riskPerTrade = 1`, `tradesPerWeek = 1`, `winRate = 0`, `fee = 1` the
first loss drives the balance to `-100` and the ruin break stops the
month after one of the four trades, so the code returns `-200` while
the claimed closed form `balance * (1 - risk * (1 + fee)) ^ trades -
balance` evaluates to `0`. -/
theorem calculateMonthlyProfit_winRate_zero_closed_form_fails :
    (Main.calculateMonthlyProfit 100 1 1 0 2 1 (fun _ => 1/2)).1 = -200 ∧
    (100 : ℚ) * (1 - 1 * (1 + 1)) ^ (1 * 4) - 100 = 0 ∧
    (-200 : ℚ) ≠ 0 := by
  refine ⟨?_, by norm_num, by norm_num⟩
  norm_num [Main.calculateMonthlyProfit, Main.tradeLoop]

/-- C4 (amended): with `winRate = 0` every trade loses and the month's
profit is never positive; the claimed closed form `balance * (1 - risk
* (1 + fee)) ^ trades - balance` holds under the additional proviso
`risk * (1 + fee) <= 1`, i.e. when a single loss cannot overshoot the
account to a negative balance and trigger the mid-month ruin break. -/
theorem calculateMonthlyProfit_winRate_zero (bal risk rr fee : ℚ) (tradesPerWeek : ℕ)
    (s : ℕ → ℚ) (hbal : 0 < bal) (hr0 : 0 < risk) (hr1 : risk ≤ 1) (hfee : 0 ≤ fee)
    (hs : ∀ k, 0 ≤ s k) :
    (Main.calculateMonthlyProfit bal risk tradesPerWeek 0 rr fee s).1 ≤ 0 ∧
    (risk * (1 + fee) ≤ 1 →
      (Main.calculateMonthlyProfit bal risk tradesPerWeek 0 rr fee s).1
        = bal * (1 - risk * (1 + fee)) ^ (tradesPerWeek * 4) - bal) := by
  constructor
  · have hnn : 0 ≤ risk * (1 + fee) := mul_nonneg hr0.le (by linarith)
    have := tradeLoop_lose_le risk rr fee hnn (tradesPerWeek * 4) bal s hs
    simp only [Main.calculateMonthlyProfit]
    linarith
  · intro hone
    have hf : 0 ≤ 1 - risk * (1 + fee) := by linarith
    simp only [Main.calculateMonthlyProfit]
    rw [tradeLoop_lose_closed risk rr fee hf (tradesPerWeek * 4) bal s hbal.le hs]

/-- C4 (witness): the amended theorem applied at `balance = 5000`,
`risk = 1/50`, `tradesPerWeek = 1`, `riskToReward = 2`, `fee = 3/100`,
constant draw `1/2`. -/
theorem calculateMonthlyProfit_winRate_zero_witness :
    0 < (5000 : ℚ) ∧
    ((Main.calculateMonthlyProfit 5000 (1/50) 1 0 2 (3/100) (fun _ => 1/2)).1 ≤ 0 ∧
      ((1 : ℚ)/50 * (1 + 3/100) ≤ 1 →
        (Main.calculateMonthlyProfit 5000 (1/50) 1 0 2 (3/100) (fun _ => 1/2)).1
          = 5000 * (1 - 1/50 * (1 + 3/100)) ^ (1 * 4) - 5000)) :=
  ⟨by norm_num,
    calculateMonthlyProfit_winRate_zero 5000 (1/50) 2 (3/100) 1 (fun _ => 1/2)
      (by norm_num) (by norm_num) (by norm_num) (by norm_num) (fun k => by norm_num)⟩

/-- C8: with `winRate = 1` and zero fee every trade wins whatever the
draws are (they are below 1), the per-trade loop of the stochastic
`calculateMonthlyProfit` is deterministic and equal to the claimed
closed-form compounding `balance * (1 + risk * riskToReward) ^ trades -
balance`, and that value coincides with the geometric-variant
`calculateMonthlyProfit` of `main.js` lines 256-282 at the same
parameters. -/
theorem calculateMonthlyProfit_winRate_one (bal risk rr : ℚ) (tradesPerWeek : ℕ)
    (s : ℕ → ℚ) (hbal : 0 < bal) (hr0 : 0 < risk) (hr1 : risk ≤ 1) (hrr : 0 < rr)
    (hs : ∀ k, s k < 1) :
    (Main.calculateMonthlyProfit bal risk tradesPerWeek 1 rr 0 s).1
      = bal * (1 + risk * rr) ^ (tradesPerWeek * 4) - bal ∧
    ((bal * (1 + risk * rr) ^ (tradesPerWeek * 4) - bal : ℚ) : ℝ)
      = Geom.calculateMonthlyProfit (bal : ℝ) (risk : ℝ) tradesPerWeek 1 (rr : ℝ) 0 := by
  constructor
  · simp only [Main.calculateMonthlyProfit]
    rw [tradeLoop_win_closed risk rr hr0 hrr (tradesPerWeek * 4) bal s hbal hs]
  · simp only [Geom.calculateMonthlyProfit]
    have h1 : ((tradesPerWeek : ℝ) * 4 - (tradesPerWeek : ℝ) * 4 * 1) = 0 := by ring
    have h2 : ((tradesPerWeek : ℝ) * 4 * 1) = ((tradesPerWeek * 4 : ℕ) : ℝ) := by
      push_cast; ring
    rw [h1, h2, Real.rpow_zero, Real.rpow_natCast]
    push_cast
    ring

/-- C8 (witness): the theorem applied at `balance = 5000`, `risk =
1/50`, `tradesPerWeek = 1`, `riskToReward = 2`, constant draw `1/2`. -/
theorem calculateMonthlyProfit_winRate_one_witness :
    0 < (5000 : ℚ) ∧
    ((Main.calculateMonthlyProfit 5000 (1/50) 1 1 2 0 (fun _ => 1/2)).1
        = 5000 * (1 + 1/50 * 2) ^ (1 * 4) - 5000 ∧
      ((5000 * (1 + (1 : ℚ)/50 * 2) ^ (1 * 4) - 5000 : ℚ) : ℝ)
        = Geom.calculateMonthlyProfit 5000 (1/50) 1 1 2 0) := by
  constructor
  · norm_num
  · have h := calculateMonthlyProfit_winRate_one 5000 (1/50) 2 1 (fun _ => 1/2)
      (by norm_num) (by norm_num) (by norm_num) (by norm_num) (fun k => by norm_num)
    refine ⟨h.1, ?_⟩
    have h2 := h.2
    push_cast at h2 ⊢
    convert h2 using 2

/-- C9: with `tradesPerWeek = 0` the trade loop runs zero iterations on
any balance and parameters, the month's profit is exactly `0` and no
random draw is consumed. -/
theorem calculateMonthlyProfit_no_trades (bal risk win rr fee : ℚ) (s : ℕ → ℚ) :
    Main.calculateMonthlyProfit bal risk 0 win rr fee s = (0, s) := by
  simp [Main.calculateMonthlyProfit, Main.tradeLoop]

/-- C10: `calculateMonthlyProfit` is homogeneous of degree 1 in the
account balance: scaling the balance by any `c > 0` scales every risked
amount, win/loss update and the returned profit by `c`, with the same
random draws consumed and the ruin break firing at the same trade. -/
theorem calculateMonthlyProfit_homogeneous (c bal risk win rr fee : ℚ) (tradesPerWeek : ℕ)
    (s : ℕ → ℚ) (hc : 0 < c) :
    (Main.calculateMonthlyProfit (c * bal) risk tradesPerWeek win rr fee s).1
      = c * (Main.calculateMonthlyProfit bal risk tradesPerWeek win rr fee s).1 := by
  simp only [Main.calculateMonthlyProfit]
  rw [tradeLoop_smul risk win rr fee c hc (tradesPerWeek * 4) bal s]
  ring

/-- C10 (witness): the theorem applied at `c = 3`, `balance = 100`,
`risk = 1/2`, `tradesPerWeek = 2`, `winRate = 1/2`, `riskToReward = 2`,
`fee = 3/100`, constant draw `1/4`. -/
theorem calculateMonthlyProfit_homogeneous_witness :
    0 < (3 : ℚ) ∧
    (Main.calculateMonthlyProfit (3 * 100) (1/2) 2 (1/2) 2 (3/100) (fun _ => 1/4)).1
      = 3 * (Main.calculateMonthlyProfit 100 (1/2) 2 (1/2) 2 (3/100) (fun _ => 1/4)).1 :=
  ⟨by norm_num,
    calculateMonthlyProfit_homogeneous 3 100 (1/2) (1/2) 2 (3/100) 2 (fun _ => 1/4)
      (by norm_num)⟩

/-! Claim C1 about `runMonteCarlo`, and claim C3 about
`calculateAnnualizedROI`. -/

/-- C1: evaluating both `runMonteCarlo` variants at `ruinParams` (one
run, any draws — `winRate = 0` makes the lifetime deterministic).  The
lifetime ruins in its single month with `endBalance = 0`, yet the
`main.js` variant reports `survived = true` because `finalMonth` is
non-null; the `app.js` variant computes `survived = endBalance > 0` and
reports `false` as the claim requires. -/
theorem runMonteCarlo_ruined_run_reported_survived :
    (Main.runMonteCarlo ruinParams 1 (fun _ => 1/2)).1
      = [⟨0, true, [⟨-100, 0, -100, 0⟩]⟩] ∧
    (App.runMonteCarlo ruinParams 1 (fun _ => 1/2)).1
      = [⟨0, false, [⟨-100, 0, -100, 0⟩]⟩] := by
  constructor
  · norm_num [Main.runMonteCarlo, Main.accumulateProfits, Main.monthLoop,
      Main.calculateMonthlyProfit, Main.tradeLoop, ruinParams]
  · norm_num [App.runMonteCarlo, Main.accumulateProfits, Main.monthLoop,
      Main.calculateMonthlyProfit, Main.tradeLoop, ruinParams]

/-- C3 (counterexample): at `finalBalance = 200`, `startingBalance =
100`, `timelineMonths = 0` we have `years = 0 <= 0`, and the claim says
the function returns `totalReturn * 100 = 100`; the code's initial
guard returns `0` instead. -/
theorem calculateAnnualizedROI_years_zero_counterexample :
    calculateAnnualizedROI 200 100 0 = 0 ∧
    (((200 - 100 : ℚ) / 100) * 100 : ℝ) = 100 ∧ (0 : ℝ) ≠ 100 := by
  refine ⟨?_, by norm_num, by norm_num⟩
  simp [calculateAnnualizedROI]

/-- C3 (amended): `calculateAnnualizedROI` returns `0` whenever
`startingBalance <= 0` or `timelineMonths <= 0` (the initial guard the
claim omits; since `years = timelineMonths / 12`, the `years <= 0`
branch is unreachable and `totalReturn * 100` is never returned), and
otherwise applies exactly the two annualization formulas of the claim. -/
theorem calculateAnnualizedROI_eq_spec (finalBalance startingBalance timelineMonths : ℚ) :
    calculateAnnualizedROI finalBalance startingBalance timelineMonths
      = annualizedROISpec finalBalance startingBalance timelineMonths := by
  simp only [calculateAnnualizedROI, annualizedROISpec]
  by_cases h : startingBalance ≤ 0 ∨ timelineMonths ≤ 0
  · rw [if_pos h, if_pos h]
  · have hnot : ¬ (startingBalance ≤ 0 ∨ timelineMonths ≤ 0) := h
    push_neg at h
    have htm : 0 < timelineMonths := h.2
    have hyears : ¬ ((timelineMonths / 12 : ℚ) ≤ 0) := not_le.mpr (by positivity)
    rw [if_neg hnot, if_neg hnot, if_neg hyears]
    have hcast : ((timelineMonths / 12 : ℚ) : ℝ) = (timelineMonths : ℝ) / 12 := by
      push_cast; ring
    rw [hcast]

/-! Month-loop lemmas for claims C6 and C7. -/

/-- The record at position `j` of the month loop started at month index
`i` is month number `i + j + 1`; its `expensesDeducted` is the monthly
expense amount exactly when the expense policy is active there. -/
theorem monthLoop_expenses_aux (risk : ℚ) (tpw : ℕ) (win rr exp : ℚ) (eb : ℤ) (fee : ℚ) :
    ∀ (m i : ℕ) (bal : ℚ) (s : ℕ → ℚ) (j : ℕ),
      j < (Main.monthLoop risk tpw win rr exp eb fee i m bal s).1.length →
      ((Main.monthLoop risk tpw win rr exp eb fee i m bal s).1.getD j
          MonthRecord.zero).expensesDeducted
        = if 1 ≤ eb ∧ eb ≤ ((i + j : ℕ) : ℤ) + 1 then exp else 0 := by
  intro m
  induction m with
  | zero => intro i bal s j hj; simp [Main.monthLoop] at hj
  | succ m ih =>
    intro i bal s j hj
    simp only [Main.monthLoop] at hj ⊢
    generalize hpr : Main.calculateMonthlyProfit bal risk tpw win rr fee s = pr at hj ⊢
    set net := if 1 ≤ eb ∧ eb ≤ (i : ℤ) + 1 then pr.1 - exp else pr.1 with hnet
    have hded : pr.1 - net = if 1 ≤ eb ∧ eb ≤ (i : ℤ) + 1 then exp else 0 := by
      rw [hnet]; split <;> ring
    by_cases hbreak : bal + net ≤ 0
    · simp only [if_pos hbreak] at hj ⊢
      have hj0 : j = 0 := by simpa using hj
      subst hj0
      simp only [List.getD_cons_zero, Nat.add_zero]
      exact hded
    · simp only [if_neg hbreak] at hj ⊢
      cases j with
      | zero =>
        simp only [List.getD_cons_zero, Nat.add_zero]
        exact hded
      | succ j =>
        simp only [List.getD_cons_succ]
        have hlen : j < (Main.monthLoop risk tpw win rr exp eb fee (i + 1) m
            (bal + net) pr.2).1.length := by
          simpa using hj
        have hidx : (i + 1) + j = i + (j + 1) := by omega
        have := ih (i + 1) (bal + net) pr.2 j hlen
        rwa [hidx] at this

/-- The head record of any nonempty month-loop output ends at the input
balance plus its own net profit. -/
theorem monthLoop_head_end (risk : ℚ) (tpw : ℕ) (win rr exp : ℚ) (eb : ℤ) (fee : ℚ) :
    ∀ (m i : ℕ) (bal : ℚ) (s : ℕ → ℚ),
      0 < (Main.monthLoop risk tpw win rr exp eb fee i m bal s).1.length →
      ((Main.monthLoop risk tpw win rr exp eb fee i m bal s).1.getD 0
          MonthRecord.zero).endBalance
        = bal + ((Main.monthLoop risk tpw win rr exp eb fee i m bal s).1.getD 0
            MonthRecord.zero).netProfit := by
  intro m
  cases m with
  | zero => intro i bal s h; simp [Main.monthLoop] at h
  | succ m =>
    intro i bal s _
    simp only [Main.monthLoop]
    generalize Main.calculateMonthlyProfit bal risk tpw win rr fee s = pr
    split <;> split <;> simp

/-- Consecutive records of the month loop chain their balances: each
record's `endBalance` is the previous record's `endBalance` plus its
own `netProfit`. -/
theorem monthLoop_chain_aux (risk : ℚ) (tpw : ℕ) (win rr exp : ℚ) (eb : ℤ) (fee : ℚ) :
    ∀ (m i : ℕ) (bal : ℚ) (s : ℕ → ℚ) (j : ℕ),
      j + 1 < (Main.monthLoop risk tpw win rr exp eb fee i m bal s).1.length →
      ((Main.monthLoop risk tpw win rr exp eb fee i m bal s).1.getD (j + 1)
          MonthRecord.zero).endBalance
        = ((Main.monthLoop risk tpw win rr exp eb fee i m bal s).1.getD j
              MonthRecord.zero).endBalance
          + ((Main.monthLoop risk tpw win rr exp eb fee i m bal s).1.getD (j + 1)
              MonthRecord.zero).netProfit := by
  intro m
  induction m with
  | zero => intro i bal s j hj; simp [Main.monthLoop] at hj
  | succ m ih =>
    intro i bal s j hj
    simp only [Main.monthLoop] at hj ⊢
    generalize hpr : Main.calculateMonthlyProfit bal risk tpw win rr fee s = pr at hj ⊢
    set net := if 1 ≤ eb ∧ eb ≤ (i : ℤ) + 1 then pr.1 - exp else pr.1 with hnet
    by_cases hbreak : bal + net ≤ 0
    · simp only [if_pos hbreak] at hj
      simp at hj
    · simp only [if_neg hbreak] at hj ⊢
      cases j with
      | zero =>
        simp only [List.getD_cons_succ, List.getD_cons_zero]
        have hlen : 0 < (Main.monthLoop risk tpw win rr exp eb fee (i + 1) m
            (bal + net) pr.2).1.length := by
          simpa using hj
        exact monthLoop_head_end risk tpw win rr exp eb fee m (i + 1) (bal + net) pr.2 hlen
      | succ j =>
        simp only [List.getD_cons_succ]
        have hlen : j + 1 < (Main.monthLoop risk tpw win rr exp eb fee (i + 1) m
            (bal + net) pr.2).1.length := by
          simpa using hj
        exact ih (i + 1) (bal + net) pr.2 j hlen

/-- C6: in every month record produced by `accumulateProfits`,
`expensesDeducted` equals the monthly expenses exactly when the expense
policy is active for that month (`expensesBegin >= 1` and the 1-based
month number `j + 1 >= expensesBegin`) and is exactly `0` otherwise,
whatever the sign of the month's gross profit. -/
theorem expensesDeducted_policy (startingBalance risk : ℚ) (tradesPerWeek : ℕ)
    (win rr exp : ℚ) (eb : ℤ) (timeline : ℕ) (fee : ℚ) (s : ℕ → ℚ) (j : ℕ)
    (hj : j < (Main.accumulateProfits startingBalance risk tradesPerWeek win rr exp eb
        timeline fee s).1.length) :
    ((Main.accumulateProfits startingBalance risk tradesPerWeek win rr exp eb
          timeline fee s).1.getD j MonthRecord.zero).expensesDeducted
      = if 1 ≤ eb ∧ eb ≤ (j : ℤ) + 1 then exp else 0 := by
  have h := monthLoop_expenses_aux risk tradesPerWeek win rr exp eb fee timeline 0
    startingBalance s j (by simpa [Main.accumulateProfits] using hj)
  simpa [Main.accumulateProfits] using h

/-- C6 (witness): two months at zero trades per week with expenses `5`
active from month 1; the first record deducts exactly `5`. -/
theorem expensesDeducted_policy_witness :
    0 < (Main.accumulateProfits 100 (1/2) 0 (1/2) 2 5 1 2 0 (fun _ => 1/2)).1.length ∧
    ((Main.accumulateProfits 100 (1/2) 0 (1/2) 2 5 1 2 0
          (fun _ => 1/2)).1.getD 0 MonthRecord.zero).expensesDeducted
      = if 1 ≤ (1 : ℤ) ∧ (1 : ℤ) ≤ ((0 : ℕ) : ℤ) + 1 then 5 else 0 := by
  have hlen : 0 < (Main.accumulateProfits 100 (1/2) 0 (1/2) 2 5 1 2 0
      (fun _ => 1/2)).1.length := by
    norm_num [Main.accumulateProfits, Main.monthLoop, Main.calculateMonthlyProfit,
      Main.tradeLoop]
  exact ⟨hlen, expensesDeducted_policy 100 (1/2) 0 (1/2) 2 5 1 2 0 (fun _ => 1/2) 0 hlen⟩

/-- C7: the balance chain of `accumulateProfits` is preserved: the
first record's `endBalance` is the starting balance plus its own
`netProfit`, and each later record's `endBalance` is the previous
record's `endBalance` plus its own `netProfit`. -/
theorem endBalance_chain (startingBalance risk : ℚ) (tradesPerWeek : ℕ)
    (win rr exp : ℚ) (eb : ℤ) (timeline : ℕ) (fee : ℚ) (s : ℕ → ℚ) :
    (0 < (Main.accumulateProfits startingBalance risk tradesPerWeek win rr exp eb
        timeline fee s).1.length →
      ((Main.accumulateProfits startingBalance risk tradesPerWeek win rr exp eb
            timeline fee s).1.getD 0 MonthRecord.zero).endBalance
        = startingBalance
          + ((Main.accumulateProfits startingBalance risk tradesPerWeek win rr exp eb
              timeline fee s).1.getD 0 MonthRecord.zero).netProfit) ∧
    (∀ j, j + 1 < (Main.accumulateProfits startingBalance risk tradesPerWeek win rr exp eb
        timeline fee s).1.length →
      ((Main.accumulateProfits startingBalance risk tradesPerWeek win rr exp eb
            timeline fee s).1.getD (j + 1) MonthRecord.zero).endBalance
        = ((Main.accumulateProfits startingBalance risk tradesPerWeek win rr exp eb
              timeline fee s).1.getD j MonthRecord.zero).endBalance
          + ((Main.accumulateProfits startingBalance risk tradesPerWeek win rr exp eb
              timeline fee s).1.getD (j + 1) MonthRecord.zero).netProfit) := by
  constructor
  · intro h
    exact monthLoop_head_end risk tradesPerWeek win rr exp eb fee timeline 0
      startingBalance s h
  · intro j hj
    exact monthLoop_chain_aux risk tradesPerWeek win rr exp eb fee timeline 0
      startingBalance s j hj

/-- C7 (witness): the chain checked on the first two records of the
two-month lifetime used for the C6 witness. -/
theorem endBalance_chain_witness :
    ((Main.accumulateProfits 100 (1/2) 0 (1/2) 2 5 1 2 0
          (fun _ => 1/2)).1.getD 0 MonthRecord.zero).endBalance
      = 100 + ((Main.accumulateProfits 100 (1/2) 0 (1/2) 2 5 1 2 0
            (fun _ => 1/2)).1.getD 0 MonthRecord.zero).netProfit ∧
    ((Main.accumulateProfits 100 (1/2) 0 (1/2) 2 5 1 2 0
          (fun _ => 1/2)).1.getD 1 MonthRecord.zero).endBalance
      = ((Main.accumulateProfits 100 (1/2) 0 (1/2) 2 5 1 2 0
            (fun _ => 1/2)).1.getD 0 MonthRecord.zero).endBalance
        + ((Main.accumulateProfits 100 (1/2) 0 (1/2) 2 5 1 2 0
            (fun _ => 1/2)).1.getD 1 MonthRecord.zero).netProfit := by
  constructor
  · exact (endBalance_chain 100 (1/2) 0 (1/2) 2 5 1 2 0 (fun _ => 1/2)).1
      (by norm_num [Main.accumulateProfits, Main.monthLoop, Main.calculateMonthlyProfit,
        Main.tradeLoop])
  · exact (endBalance_chain 100 (1/2) 0 (1/2) 2 5 1 2 0 (fun _ => 1/2)).2 0
      (by norm_num [Main.accumulateProfits, Main.monthLoop, Main.calculateMonthlyProfit,
        Main.tradeLoop])

/-! Counting lemmas for claim C2. -/

/-- The `reduce`-style ruin counter equals a filter count, for any
accumulator start. -/
theorem foldl_ruin_aux :
    ∀ (l : List RunResult) (c : ℕ),
      l.foldl (fun count run => if run.finalBalance ≤ 0 then count + 1 else count) c
        = c + l.countP (fun run => decide (run.finalBalance ≤ 0)) := by
  intro l
  induction l with
  | nil => intro c; simp
  | cons r t ih =>
    intro c
    simp only [List.foldl_cons, List.countP_cons, ih]
    by_cases h : r.finalBalance ≤ 0 <;> simp [h] <;> omega

/-- `totalRuinCount` as a `countP`. -/
theorem totalRuinCount_eq_countP (l : List RunResult) :
    totalRuinCount l = l.countP (fun run => decide (run.finalBalance ≤ 0)) := by
  simpa [totalRuinCount] using foldl_ruin_aux l 0

/-- C2 (counterexample): the single run produced by
`runMonteCarlo(idleParams, 1)` ends exactly at the starting balance
`100`, so it is neither ruined, nor losing-but-solvent, nor profitable:
the three class counts sum to `0`, not to the run count `1`. -/
theorem reporting_classes_not_partition :
    idleRunSet.length = 1 ∧
    totalRuinCount idleRunSet
      + losingCount idleRunSet idleParams.startingBalance
      + profitableCount idleRunSet idleParams.startingBalance = 0 := by
  constructor <;>
    norm_num [idleRunSet, idleParams, Main.runMonteCarlo, Main.accumulateProfits,
      Main.monthLoop, Main.calculateMonthlyProfit, Main.tradeLoop, totalRuinCount,
      losingCount, profitableCount]

/-- C2 (amended): with a positive starting balance the three reporting
classes — ruined (`finalBalance <= 0`), losing-but-solvent (`0 <
finalBalance < startingBalance`) and profitable (`finalBalance >
startingBalance`) — are pairwise disjoint but leave out exactly the
runs that end precisely at the starting balance (all comparisons in the
code are strict), so the three class counts plus the count of such
boundary runs sum to the total number of runs. -/
theorem reporting_classes_partition (results : List RunResult) (startingBalance : ℚ)
    (hsb : 0 < startingBalance) :
    totalRuinCount results + losingCount results startingBalance
      + profitableCount results startingBalance
      + boundaryCount results startingBalance = results.length := by
  simp only [totalRuinCount_eq_countP, losingCount, profitableCount, boundaryCount,
    ← List.countP_eq_length_filter, gt_iff_lt]
  induction results with
  | nil => simp
  | cons r t ih =>
    simp only [List.countP_cons, List.length_cons]
    rcases le_or_lt r.finalBalance 0 with h1 | h1
    · have hngt : ¬ (0 : ℚ) < r.finalBalance := not_lt.mpr h1
      have hnp : ¬ startingBalance < r.finalBalance := not_lt.mpr (h1.trans hsb.le)
      have hne : r.finalBalance ≠ startingBalance := by
        intro he; rw [he] at h1; exact absurd hsb (not_lt.mpr h1)
      simp [h1, hngt, hnp, hne]
      omega
    · rcases lt_trichotomy r.finalBalance startingBalance with h2 | h2 | h2
      · have hnr : ¬ r.finalBalance ≤ 0 := not_le.mpr h1
        have hnp : ¬ startingBalance < r.finalBalance := not_lt.mpr h2.le
        simp [h1, h2, hnr, hnp, ne_of_lt h2]
        omega
      · simp [h2, not_le.mpr hsb]
        omega
      · have hnr : ¬ r.finalBalance ≤ 0 := not_le.mpr h1
        have hnl : ¬ r.finalBalance < startingBalance := not_lt.mpr h2.le
        simp [h2, hnr, hnl, ne_of_gt h2]
        omega

/-- C2 (witness): the amended partition applied to the eleven-run list
with starting balance `5`: the run ending exactly at `5` is the
boundary run. -/
theorem reporting_classes_partition_witness :
    0 < (5 : ℚ) ∧
    totalRuinCount elevenRuns + losingCount elevenRuns 5 + profitableCount elevenRuns 5
      + boundaryCount elevenRuns 5 = elevenRuns.length :=
  ⟨by norm_num, reporting_classes_partition elevenRuns 5 (by norm_num)⟩

/-! Histogram lemmas for claim C5. -/

/-- Generic bucket partition: when the width is positive and no run
lies below `coreMin`, every run with `finalBalance < coreMax` gets the
nonnegative capped index `min 8 (floor ((fb - coreMin) / width))`, all
remaining runs are outliers, and the ten counts sum to the number of
runs. -/
theorem bucketCounts_aux (coreMax coreMin width : ℚ) (hw : 0 < width) :
    ∀ (l : List RunResult), (∀ r ∈ l, coreMin ≤ r.finalBalance) →
      (∑ i in Finset.range 9, coreBucketCount l coreMax coreMin width i)
        + outlierBucketCount l coreMax = l.length := by
  intro l
  induction l with
  | nil => intro _; simp [coreBucketCount, outlierBucketCount]
  | cons r t ih =>
    intro hmin
    have ht := ih (fun x hx => hmin x (List.mem_cons_of_mem _ hx))
    simp only [coreBucketCount, outlierBucketCount, ← List.countP_eq_length_filter,
      List.countP_cons, List.length_cons] at ht ⊢
    by_cases hc : r.finalBalance < coreMax
    · have h0 : (0 : ℤ) ≤ bucketIndexOf coreMin width r := by
        refine le_min (by norm_num) (Int.le_floor.mpr ?_)
        push_cast
        exact div_nonneg (sub_nonneg.mpr (hmin r (List.mem_cons_self r t))) hw.le
      have h8 : bucketIndexOf coreMin width r ≤ 8 := min_le_left _ _
      set i0 : ℕ := (bucketIndexOf coreMin width r).toNat with hi0def
      have hi0 : (i0 : ℤ) = bucketIndexOf coreMin width r := Int.toNat_of_nonneg h0
      have hi0lt : i0 < 9 := by omega
      have hsum : ∀ i : ℕ,
          (if (decide (r.finalBalance < coreMax)
              && decide (bucketIndexOf coreMin width r = (i : ℤ))) = true then 1 else 0)
            = (if i = i0 then 1 else 0) := by
        intro i
        simp only [Bool.and_eq_true, decide_eq_true_eq, hc, true_and]
        by_cases hii : i = i0
        · subst hii
          simp [hi0.symm]
        · have hne : ¬ bucketIndexOf coreMin width r = (i : ℤ) := by
            intro he; exact hii (by omega)
          simp [hii, hne]
      simp only [hsum]
      rw [Finset.sum_add_distrib, Finset.sum_ite_eq' (Finset.range 9) i0 (fun _ => 1)]
      simp only [Finset.mem_range, hi0lt, if_true, hc]
      simp
      omega
    · simp [hc]
      omega

/-- C5: whenever the adaptive histogram is computed (more than 10 runs,
positive core range) over ascending-sorted results (so no balance lies
below `results[0]`), every run with `finalBalance < coreMax` receives a
bucket index in `0..8` — hence `buckets[bucketIndex]` exists and the
run is counted there — every other run is counted in the outlier
bucket, and the nine core counts plus the outlier count sum to the
total number of runs. -/
theorem histogram_buckets_partition (results : List RunResult)
    (hN : 10 < results.length)
    (hrange : 0 < histCoreMax results - histCoreMin results)
    (hmin : ∀ r ∈ results, histCoreMin results ≤ r.finalBalance) :
    (∀ r ∈ results, r.finalBalance < histCoreMax results →
        0 ≤ bucketIndexOf (histCoreMin results) (histBucketWidth results) r ∧
        bucketIndexOf (histCoreMin results) (histBucketWidth results) r ≤ 8) ∧
    (∑ i in Finset.range 9, coreBucketCount results (histCoreMax results)
        (histCoreMin results) (histBucketWidth results) i)
      + outlierBucketCount results (histCoreMax results) = results.length := by
  have hw : 0 < histBucketWidth results := by
    have : histBucketWidth results = (histCoreMax results - histCoreMin results) / 9 := rfl
    rw [this]
    exact div_pos hrange (by norm_num)
  constructor
  · intro r hr _
    refine ⟨le_min (by norm_num) (Int.le_floor.mpr ?_), min_le_left _ _⟩
    push_cast
    exact div_nonneg (sub_nonneg.mpr (hmin r hr)) hw.le
  · exact bucketCounts_aux _ _ _ hw results hmin

/-- C5 (witness): the partition applied to eleven runs with balances
`0..10`; the 98th-percentile cutoff index is `floor (11 * 0.98) = 10`,
so the core range is `[0, 10)` and the run at `10` is the outlier. -/
theorem histogram_buckets_partition_witness :
    10 < elevenRuns.length ∧
    0 < histCoreMax elevenRuns - histCoreMin elevenRuns ∧
    (∀ r ∈ elevenRuns, histCoreMin elevenRuns ≤ r.finalBalance) ∧
    ((∀ r ∈ elevenRuns, r.finalBalance < histCoreMax elevenRuns →
        0 ≤ bucketIndexOf (histCoreMin elevenRuns) (histBucketWidth elevenRuns) r ∧
        bucketIndexOf (histCoreMin elevenRuns) (histBucketWidth elevenRuns) r ≤ 8) ∧
      (∑ i in Finset.range 9, coreBucketCount elevenRuns (histCoreMax elevenRuns)
          (histCoreMin elevenRuns) (histBucketWidth elevenRuns) i)
        + outlierBucketCount elevenRuns (histCoreMax elevenRuns) = elevenRuns.length) := by
  have hlen : elevenRuns.length = 11 := by simp [elevenRuns]
  have hcut : histCutoffIndex 11 = 10 := by
    have hfloor : ⌊(11 : ℚ) * (98 / 100)⌋ = 10 := by
      rw [Int.floor_eq_iff] <;> norm_num
    simp [histCutoffIndex, hfloor]
  have hmax : histCoreMax elevenRuns = 10 := by
    rw [histCoreMax, hlen, hcut]
    simp [elevenRuns]
  have hzero : histCoreMin elevenRuns = 0 := by
    simp [histCoreMin, elevenRuns]
  have h1 : 10 < elevenRuns.length := by rw [hlen]; norm_num
  have h2 : 0 < histCoreMax elevenRuns - histCoreMin elevenRuns := by
    rw [hmax, hzero]; norm_num
  have h3 : ∀ r ∈ elevenRuns, histCoreMin elevenRuns ≤ r.finalBalance := by
    rw [hzero]
    intro r hr
    fin_cases hr <;> norm_num
  exact ⟨h1, h2, h3, histogram_buckets_partition elevenRuns h1 h2 h3⟩

end TradingSim
